import Mathlib

/-!
Shallow embedding of the enhancement pipeline of `src/ai-app-builder/services/main.py`
(the `EnhancementService` class and the `/analyze-existing` and `/enhance-app`
endpoints), together with theorems settling the frozen claims about it.

Modelling conventions:
* Python strings are Lean `String`s; where character-level slicing matters the
  code works on `List Char` (`String.toList`).
* Python `dict`/JSON values are the inductive `Json` below; `json.loads` is
  modelled by the executable recursive-descent parser `jsonParseChars`
  (objects, arrays, strings with the common escapes, integer numbers, the three
  literals, and the four JSON whitespace characters; Python keeps the last
  binding of a duplicate object key at its first position, which `objInsert`
  reproduces).  JSON floats and `\u` escapes are outside the fragment the
  claims exercise.
* Filesystem paths are lists of segments; a directory tree is a list of
  `(absolute-path-segments, content)` pairs.  `str(path)` is modelled by
  joining the segments with `'/'` (`pathChars`).  Write failures of the OS are
  modelled by the `failing` component of `FSState`.
* The text oracle (Gemini) is an external collaborator; one call is one
  `OracleResult` value: either the returned text or a raised error.
-/

namespace AppBuilder

/-- JSON values as produced by `json.loads` (numbers restricted to integers). -/
inductive Json where
  | null : Json
  | bool (b : Bool) : Json
  | num (n : Int) : Json
  | str (s : String) : Json
  | arr (xs : List Json) : Json
  | obj (kvs : List (String × Json)) : Json

/-- Whitespace stripped by Python's `str.strip()` (ASCII fragment). -/
def isStripWs (c : Char) : Bool :=
  c = ' ' || c = '\t' || c = '\n' || c = '\r' || c = '\x0b' || c = '\x0c'

/-- Whitespace accepted between tokens by Python's `json.loads`. -/
def isJsonWs (c : Char) : Bool :=
  c = ' ' || c = '\t' || c = '\n' || c = '\r'

/-- Left half of `str.strip()`. -/
def pyStripLeft (l : List Char) : List Char := l.dropWhile isStripWs

/-- Right half of `str.strip()`. -/
def pyStripRight (l : List Char) : List Char :=
  (l.reverse.dropWhile isStripWs).reverse

/-- Python `str.strip()` on a character list. -/
def pyStrip (l : List Char) : List Char := pyStripRight (pyStripLeft l)

/-- Python slice `s[front:-back]` (for `front ≥ 0`, `back > 0`). -/
def pySlice (l : List Char) (front back : Nat) : List Char :=
  (l.take (l.length - back)).drop front

def skipWs (l : List Char) : List Char := l.dropWhile isJsonWs

/-- Value of a JSON string escape `\c` (`\u` escapes are not modelled). -/
def escChar (c : Char) : Option Char :=
  if c = '"' then some '"'
  else if c = '\\' then some '\\'
  else if c = '/' then some '/'
  else if c = 'n' then some '\n'
  else if c = 't' then some '\t'
  else if c = 'r' then some '\r'
  else if c = 'b' then some '\x08'
  else if c = 'f' then some '\x0c'
  else none

/-- Parse the body of a JSON string literal (after the opening quote). -/
def parseStrChars : Nat → List Char → Option (List Char × List Char)
  | 0, _ => none
  | _ + 1, [] => none
  | fuel + 1, c :: rest =>
    if c = '"' then some ([], rest)
    else if c = '\\' then
      match rest with
      | [] => none
      | e :: rest2 =>
        match escChar e with
        | none => none
        | some d => (parseStrChars fuel rest2).map (fun p => (d :: p.1, p.2))
    else (parseStrChars fuel rest).map (fun p => (c :: p.1, p.2))

def digitVal (c : Char) : Nat := c.toNat - 48

def digitsToNat (ds : List Char) : Nat :=
  ds.foldl (fun acc c => 10 * acc + digitVal c) 0

/-- Parse a JSON integer (optional minus sign, then digits). -/
def parseNum (l : List Char) : Option (Json × List Char) :=
  match l with
  | '-' :: rest =>
    let ds := rest.takeWhile Char.isDigit
    if ds.isEmpty then none
    else some (.num (-(digitsToNat ds : Int)), rest.dropWhile Char.isDigit)
  | _ =>
    let ds := l.takeWhile Char.isDigit
    if ds.isEmpty then none
    else some (.num (digitsToNat ds : Int), l.dropWhile Char.isDigit)

/-- Insert a key into an object under Python `dict` semantics: a repeated key
keeps its first position but takes the new value. -/
def objInsert (kvs : List (String × Json)) (k : String) (v : Json) :
    List (String × Json) :=
  if kvs.any (fun p => p.1 == k) then
    kvs.map (fun p => if p.1 == k then (k, v) else p)
  else kvs ++ [(k, v)]

mutual

/-- Recursive-descent JSON value parser (fuel-indexed). -/
def parseVal : Nat → List Char → Option (Json × List Char)
  | 0, _ => none
  | fuel + 1, l =>
    match skipWs l with
    | [] => none
    | c :: rest =>
      if c = '"' then
        (parseStrChars (rest.length + 1) rest).map
          (fun p => (.str (String.mk p.1), p.2))
      else if c = '\x7b' then
        match skipWs rest with
        | '\x7d' :: r2 => some (.obj [], r2)
        | r2 => parseMembers fuel r2 []
      else if c = '[' then
        match skipWs rest with
        | ']' :: r2 => some (.arr [], r2)
        | r2 => parseItems fuel r2 []
      else if c = 't' then
        if "rue".toList.isPrefixOf rest then some (.bool true, rest.drop 3)
        else none
      else if c = 'f' then
        if "alse".toList.isPrefixOf rest then some (.bool false, rest.drop 4)
        else none
      else if c = 'n' then
        if "ull".toList.isPrefixOf rest then some (.null, rest.drop 3)
        else none
      else if c = '-' || c.isDigit then parseNum (c :: rest)
      else none

/-- Parse the members of a JSON object (after the opening brace, at least one
member present). -/
def parseMembers : Nat → List Char → List (String × Json) →
    Option (Json × List Char)
  | 0, _, _ => none
  | fuel + 1, l, acc =>
    match skipWs l with
    | '"' :: rest =>
      match parseStrChars (rest.length + 1) rest with
      | none => none
      | some (k, r1) =>
        match skipWs r1 with
        | ':' :: r2 =>
          match parseVal fuel r2 with
          | none => none
          | some (v, r3) =>
            let acc2 := objInsert acc (String.mk k) v
            match skipWs r3 with
            | ',' :: r4 => parseMembers fuel r4 acc2
            | '\x7d' :: r4 => some (.obj acc2, r4)
            | _ => none
        | _ => none
    | _ => none

/-- Parse the items of a JSON array (after the opening bracket, at least one
item present). -/
def parseItems : Nat → List Char → List Json → Option (Json × List Char)
  | 0, _, _ => none
  | fuel + 1, l, acc =>
    match parseVal fuel l with
    | none => none
    | some (v, r) =>
      match skipWs r with
      | ',' :: r2 => parseItems fuel r2 (acc ++ [v])
      | ']' :: r2 => some (.arr (acc ++ [v]), r2)
      | _ => none

end

/-- `json.loads` on a character list: parse one value, then require only
whitespace to remain. -/
def jsonParseChars (l : List Char) : Option Json :=
  match parseVal (2 * l.length + 2) l with
  | some (j, rest) => if (skipWs rest).isEmpty then some j else none
  | none => none

/-- `json.loads` on a string. -/
def jsonParse (s : String) : Option Json := jsonParseChars s.toList

/-- The fence-stripping step of `_clean_json_response` (main.py:561-566):
strip, then drop `text[7:-3]` when the text starts with the ```` ```json ````
marker, `text[3:-3]` when it starts with a bare ```` ``` ```` marker. -/
def cleanText (l : List Char) : List Char :=
  let t := pyStrip l
  if "```json".toList.isPrefixOf t then pySlice t 7 3
  else if "```".toList.isPrefixOf t then pySlice t 3 3
  else t

/-- `EnhancementService._clean_json_response` (main.py:559-572): fence-strip,
parse as JSON, and on a parse failure return the sentinel error object carrying
the first 500 characters of the offending (cleaned) text. -/
def cleanJsonResponseChars (l : List Char) : Json :=
  let t := cleanText l
  match jsonParseChars t with
  | some j => j
  | none =>
    .obj [("error", .str "Failed to parse response"),
          ("raw_response", .str (String.mk (t.take 500)))]

def cleanJsonResponse (s : String) : Json := cleanJsonResponseChars s.toList

/-- Association-list lookup used to model Python `dict` indexing (keys are
unique by construction, see `objInsert`). -/
def lookupKvs : List (String × Json) → String → Option Json
  | [], _ => none
  | (k', v) :: rest, k => if k' = k then some v else lookupKvs rest k

/-- `enhancements["key"]` guarded by `if "key" in enhancements` (change sets
are JSON objects in the fragment the claims exercise). -/
def jLookup : Json → String → Option Json
  | .obj kvs, k => lookupKvs kvs k
  | _, _ => none

/-- The outcome of one `model.generate_content` round trip: the returned text,
or a raised exception message. -/
inductive OracleResult where
  | ok (text : String) : OracleResult
  | err (msg : String) : OracleResult

/-! ## ProjectReader (`_read_project_files`, main.py:508-533) -/

/-- A directory tree: absolute path segments paired with file content. -/
def FileTree := List (List String × String)

/-- Join path segments with `'/'`, modelling `str(pathlib.Path(...))`. -/
def joinSegs : List (List Char) → List Char
  | [] => []
  | [s] => s
  | s :: s2 :: rest => s ++ '/' :: joinSegs (s2 :: rest)

def pathChars (p : List String) : List Char := joinSegs (p.map String.toList)

/-- Python's substring test `needle in str(path)`. -/
def containsSub (needle : String) (p : List String) : Bool :=
  decide (needle.toList <:+: pathChars p)

def strEndsWith (s suf : String) : Bool := suf.toList.isSuffixOf s.toList

def lastSegOf (p : List String) : String := p.getLastD ""

/-- `p` lies strictly below `root`. -/
def isProperUnder (root p : List String) : Bool :=
  root.isPrefixOf p && decide (root.length < p.length)

/-- The recursive `rglob("*.py")` loop of `_read_project_files`: every `.py`
file below the project root whose full stringified path contains neither
`"venv"` nor `"__pycache__"` as a substring, keyed by its path relative to the
root. -/
def sourceFilesOf (tree : FileTree) (root : List String) :
    List (List String × String) :=
  (tree.filter (fun e =>
      isProperUnder root e.1 &&
      strEndsWith (lastSegOf e.1) ".py" &&
      !containsSub "venv" e.1 &&
      !containsSub "__pycache__" e.1)).map
    (fun e => (e.1.drop root.length, e.2))

/-- One of the non-recursive `glob` patterns of the second loop. -/
def matchesExtra (name : String) : Bool :=
  strEndsWith name ".txt" || strEndsWith name ".md" ||
  strEndsWith name ".yml" || strEndsWith name ".yaml" || name = "Dockerfile"

/-- The second loop of `_read_project_files`: direct children of the root
matching the documentation/config patterns (no exclusion test is applied
there). -/
def topLevelExtraOf (tree : FileTree) (root : List String) :
    List (List String × String) :=
  (tree.filter (fun e =>
      root.isPrefixOf e.1 && (e.1.length == root.length + 1) &&
      matchesExtra (lastSegOf e.1))).map
    (fun e => (e.1.drop root.length, e.2))

/-- `EnhancementService._read_project_files`: empty when the root does not
exist, otherwise the recursively collected source files plus the top-level
extras.  Relative keys are kept as segment lists. -/
def readProjectFiles (tree : FileTree) (root : List String)
    (rootExists : Bool) : List (List String × String) :=
  if rootExists then sourceFilesOf tree root ++ topLevelExtraOf tree root
  else []

/-! ## ChangeApplier (`_apply_enhancements`, main.py:535-557) -/

/-- Filesystem state: file contents by absolute path, plus the set of paths at
which `write_text` raises an OS error. -/
structure FSState where
  files : List (List String × String)
  failing : List (List String)

/-- Overwrite-or-create one path in a file listing. -/
def setPath : List (List String × String) → List String → String →
    List (List String × String)
  | [], p, c => [(p, c)]
  | (q, d) :: rest, p, c =>
    if q = p then (p, c) :: rest else (q, d) :: setPath rest p c

/-- Content stored at a path. -/
def getPath : List (List String × String) → List String → Option String
  | [], _ => none
  | (q, d) :: rest, p => if q = p then some d else getPath rest p

/-- `Path.write_text`: `none` models a raised OS error. -/
def writeText (fs : FSState) (p : List String) (c : String) : Option FSState :=
  if p ∈ fs.failing then none
  else some { fs with files := setPath fs.files p c }

/-- Resolve `"."`/`".."`/empty segments the way the OS resolves the joined
path `project_dir / file_path` at write time. -/
def normalizeSegs (segs : List String) : List String :=
  segs.foldl (fun acc s =>
    if s = "" || s = "." then acc
    else if s = ".." then acc.dropLast
    else acc ++ [s]) []

/-- Split a character list on `'/'` (the behavior of `.splitOn "/"`). -/
def splitSegsAux : List Char → List Char → List String
  | [], acc => [String.mk acc.reverse]
  | c :: rest, acc =>
    if c = '/' then String.mk acc.reverse :: splitSegsAux rest []
    else splitSegsAux rest (c :: acc)

def splitSegs (s : String) : List String := splitSegsAux s.toList []

/-- Target of `project_dir / file_path` for a relative `file_path`. -/
def resolve (root : List String) (rel : String) : List String :=
  normalizeSegs (root ++ splitSegs rel)

/-- The Python truthiness test `isinstance(code, str) and code.strip()`. -/
def isNonWsStr : Json → Bool
  | .str s => !(pyStrip s.toList).isEmpty
  | _ => false

def strVal : Json → String
  | .str s => s
  | _ => ""

/-- One of the two write loops of `_apply_enhancements`.  Entries whose value
fails the truthiness test are skipped; the first raised write error aborts the
remaining entries of the batch (the `true` flag records that an exception is
in flight). -/
def applyList (root : List String) :
    List (String × Json) → FSState → FSState × Bool
  | [], fs => (fs, false)
  | (p, v) :: rest, fs =>
    if isNonWsStr v then
      match writeText fs (resolve root p) (strVal v) with
      | some fs' => applyList root rest fs'
      | none => (fs, true)
    else applyList root rest fs

/-- `EnhancementService._apply_enhancements`: the `modifications` loop, then
the `new_files` loop, under a single `try`/`except` that swallows the first
exception (a non-object value raises in `.items()`).  An exception raised in
the first loop therefore also skips the whole second loop. -/
def applyEnhancements (root : List String) (enh : Json) (fs : FSState) :
    FSState :=
  let step1 :=
    match jLookup enh "modifications" with
    | none => (fs, false)
    | some (.obj kvs) => applyList root kvs fs
    | some _ => (fs, true)
  match step1 with
  | (fs1, true) => fs1
  | (fs1, false) =>
    match jLookup enh "new_files" with
    | none => fs1
    | some (.obj kvs) => (applyList root kvs fs1).1
    | some _ => fs1

/-! ## ProjectAnalyzer (`analyze_existing_code`, main.py:421-470) -/

/-- The pydantic model `CodeAnalysis` (main.py:43-47). -/
structure CodeAnalysis where
  current_structure : List (String × Json)
  identified_issues : List String
  improvement_suggestions : List String
  complexity_score : Int

def asObj : Json → Option (List (String × Json))
  | .obj kvs => some kvs
  | _ => none

def asStr : Json → Option String
  | .str s => some s
  | _ => none

def asStrList : Json → Option (List String)
  | .arr xs => xs.mapM asStr
  | _ => none

def asInt : Json → Option Int
  | .num n => some n
  | _ => none

/-- `CodeAnalysis(**result)`: requires an object carrying the four typed
fields (extra keys are ignored, as pydantic does by default); anything else
raises, which the caller turns into the fallback. -/
def mkCodeAnalysis (j : Json) : Option CodeAnalysis := do
  let cs ← (jLookup j "current_structure").bind asObj
  let ii ← (jLookup j "identified_issues").bind asStrList
  let sug ← (jLookup j "improvement_suggestions").bind asStrList
  let sc ← (jLookup j "complexity_score").bind asInt
  some ⟨cs, ii, sug, sc⟩

/-- The deterministic fallback report of `analyze_existing_code`
(main.py:460-470); `n` is `len(project_files)`. -/
def fallbackAnalysis (n : Nat) : CodeAnalysis :=
  { current_structure :=
      [("files_count", .num n),
       ("main_components", .arr [.str "main.py", .str "models.py"]),
       ("architecture_pattern", .str "FastAPI MVC"),
       ("database_used", .str "SQLite")]
    identified_issues := ["No specific issues found"]
    improvement_suggestions := ["Add error handling", "Add logging"]
    complexity_score := 5 }

/-- `EnhancementService.analyze_existing_code`: one oracle call; on any
exception (oracle failure, parse-failure object rejected by the pydantic
constructor, wrong shape) the deterministic fallback is returned. -/
def analyzeExistingService (tree : FileTree) (root : List String)
    (rootExists : Bool) (oracle : OracleResult) : CodeAnalysis :=
  let files := readProjectFiles tree root rootExists
  match oracle with
  | .err _ => fallbackAnalysis files.length
  | .ok t =>
    match mkCodeAnalysis (cleanJsonResponseChars t.toList) with
    | some ca => ca
    | none => fallbackAnalysis files.length

/-! ## EnhancementPlanner (`generate_enhancement`, main.py:472-506) -/

/-- `EnhancementService.generate_enhancement`: one oracle call; on a raised
oracle error return the failure object; otherwise fence-strip/parse the
response, apply it (`_apply_enhancements` swallows its own errors), and return
the parsed value — which on a parse failure is the sentinel object of
`_clean_json_response`, applied as an (empty) change set. -/
def genEnhancement (root : List String) (oracle : OracleResult)
    (fs : FSState) : Json × FSState :=
  match oracle with
  | .err msg =>
    (.obj [("error", .str msg),
           ("changes_summary", .str "Failed to generate enhancements")], fs)
  | .ok t =>
    let result := cleanJsonResponseChars t.toList
    (result, applyEnhancements root result fs)

/-! ## Endpoints (main.py:716-751) -/

/-- A raised `HTTPException`. -/
structure HTTPError where
  status : Nat
  detail : String

/-- Starlette's `HTTPException.__str__`, i.e. what `str(e)` produces in the
blanket `except` clause. -/
def httpExcStr (e : HTTPError) : String :=
  toString e.status ++ ": " ++ e.detail

structure AnalyzeResp where
  status : String
  analysis : CodeAnalysis

structure EnhanceResp where
  status : String
  analysis : CodeAnalysis
  enhancements : Json

/-- `POST /analyze-existing` (main.py:716-726).  The body raises a 404 when
the path is missing, before calling the service; the surrounding
`except Exception` catches that very `HTTPException` and re-raises it as a
500 whose detail is `str(e)`.  The `Nat` component counts oracle calls. -/
def analyzeExistingEndpoint (tree : FileTree) (root : List String)
    (rootExists : Bool) (oracle : OracleResult) :
    Except HTTPError AnalyzeResp × Nat :=
  let inner : Except HTTPError AnalyzeResp × Nat :=
    if rootExists then
      (.ok { status := "success"
             analysis := analyzeExistingService tree root rootExists oracle },
       1)
    else (.error { status := 404, detail := "Project path not found" }, 0)
  match inner with
  | (.ok v, n) => (.ok v, n)
  | (.error e, n) => (.error { status := 500, detail := httpExcStr e }, n)

/-- `POST /enhance-app` (main.py:728-751): same guard and the same blanket
`except`; on an existing path it analyzes (one oracle call) then generates and
applies the enhancement (a second oracle call). -/
def enhanceAppEndpoint (tree : FileTree) (root : List String)
    (rootExists : Bool) (o1 o2 : OracleResult) (fs : FSState) :
    Except HTTPError EnhanceResp × Nat × FSState :=
  let inner : Except HTTPError EnhanceResp × Nat × FSState :=
    if rootExists then
      let analysis := analyzeExistingService tree root rootExists o1
      let res := genEnhancement root o2 fs
      (.ok { status := "success", analysis := analysis,
             enhancements := res.1 }, 2, res.2)
    else (.error { status := 404, detail := "Project path not found" }, 0, fs)
  match inner with
  | (.ok v, n, fs') => (.ok v, n, fs')
  | (.error e, n, fs') =>
    (.error { status := 500, detail := httpExcStr e }, n, fs')

/-! ## Helper lemmas -/

theorem getPath_setPath_self (fl : List (List String × String))
    (p : List String) (c : String) : getPath (setPath fl p c) p = some c := by
  induction fl with
  | nil => simp [setPath, getPath]
  | cons e rest ih =>
    obtain ⟨q, d⟩ := e
    by_cases h : q = p
    · simp [setPath, getPath, h]
    · simp [setPath, getPath, h, ih]

theorem getPath_setPath_ne (fl : List (List String × String))
    (p q : List String) (c : String) (h : q ≠ p) :
    getPath (setPath fl p c) q = getPath fl q := by
  have h' : p ≠ q := fun hc => h hc.symm
  induction fl with
  | nil => simp [setPath, getPath, h']
  | cons e rest ih =>
    obtain ⟨r, d⟩ := e
    by_cases hr : r = p
    · subst hr
      simp [setPath, getPath, h']
    · simp [setPath, getPath, hr, ih]

theorem mem_infix_joinSegs (x : List Char) (ls : List (List Char))
    (h : x ∈ ls) : x <:+: joinSegs ls := by
  induction ls with
  | nil => cases h
  | cons y rest ih =>
    cases rest with
    | nil =>
      have hx : x = y := by simpa using h
      subst hx
      exact List.infix_refl x
    | cons z rest' =>
      rcases List.mem_cons.mp h with hx | hx
      · subst hx
        exact (List.prefix_append x ('/' :: joinSegs (z :: rest'))).isInfix
      · have h1 := ih hx
        have h2 : joinSegs (z :: rest')
            <:+: y ++ '/' :: joinSegs (z :: rest') := by
          have hs := List.suffix_append (y ++ ['/']) (joinSegs (z :: rest'))
          simpa [List.append_assoc] using hs.isInfix
        exact h1.trans h2

theorem seg_infix_pathChars (s : String) (p : List String) (h : s ∈ p) :
    s.toList <:+: pathChars p :=
  mem_infix_joinSegs _ _ (List.mem_map_of_mem String.toList h)

theorem joinSegs_append (a b : List (List Char)) (ha : a ≠ []) (hb : b ≠ []) :
    joinSegs (a ++ b) = joinSegs a ++ '/' :: joinSegs b := by
  induction a with
  | nil => exact absurd rfl ha
  | cons x a' ih =>
    cases a' with
    | nil =>
      cases b with
      | nil => exact absurd rfl hb
      | cons y rest => rfl
    | cons x2 a'' =>
      have ih' := ih (by simp)
      show joinSegs (x :: (x2 :: a'') ++ b) = _
      rw [show joinSegs (x :: (x2 :: a'') ++ b)
          = x ++ '/' :: joinSegs ((x2 :: a'') ++ b) from rfl]
      rw [ih']
      rw [show joinSegs (x :: x2 :: a'')
          = x ++ '/' :: joinSegs (x2 :: a'') from rfl]
      simp [List.append_assoc]

theorem containsSub_of_prefix (needle : String) (root p : List String)
    (hpre : root <+: p) (h : containsSub needle root = true) :
    containsSub needle p = true := by
  rcases hpre with ⟨rest, hr⟩
  subst hr
  have hinf : needle.toList <:+: pathChars root := by
    simpa [containsSub] using h
  have hout : needle.toList <:+: pathChars (root ++ rest) := by
    cases rest with
    | nil => simpa using hinf
    | cons z rs =>
      by_cases hroot : root = []
      · subst hroot
        have hn : needle.toList = [] := by
          simpa [pathChars, joinSegs] using hinf
        rw [hn]
        exact List.nil_infix
      · have hjoin : pathChars (root ++ z :: rs)
            = pathChars root ++ '/' :: pathChars (z :: rs) := by
          unfold pathChars
          rw [List.map_append]
          exact joinSegs_append _ _ (by simpa using hroot) (by simp)
        rw [hjoin]
        exact hinf.trans (List.prefix_append _ _).isInfix
  simpa [containsSub] using hout

theorem no_seg_of_containsSub_false (needle : String) (p : List String)
    (n : Nat) (h : containsSub needle p = false) :
    needle ∉ (p.drop n).dropLast := by
  intro hseg
  have h1 : needle ∈ p.drop n := List.mem_of_mem_dropLast hseg
  have h2 : needle ∈ p := List.Sublist.mem h1 (List.drop_sublist n p)
  have hinf := seg_infix_pathChars needle p h2
  have htrue : containsSub needle p = true := by
    simpa [containsSub] using hinf
  rw [h] at htrue
  cases htrue

theorem pyStripLeft_cons (c : Char) (l : List Char) (h : isStripWs c = false) :
    pyStripLeft (c :: l) = c :: l := by
  simp [pyStripLeft, List.dropWhile_cons, h]

theorem pyStripRight_append (l : List Char) (c : Char)
    (h : isStripWs c = false) : pyStripRight (l ++ [c]) = l ++ [c] := by
  simp [pyStripRight, List.reverse_append, List.dropWhile_cons, h]

theorem pyStrip_wrap (inner : List Char) :
    pyStrip ("```json".toList ++ inner ++ "```".toList)
      = "```json".toList ++ inner ++ "```".toList := by
  unfold pyStrip
  have hl : pyStripLeft ("```json".toList ++ inner ++ "```".toList)
      = "```json".toList ++ inner ++ "```".toList := by
    show pyStripLeft
        ('\x60' :: ("``json".toList ++ inner ++ "```".toList)) = _
    rw [pyStripLeft_cons _ _ (by decide)]
    rfl
  rw [hl]
  rw [show ("```".toList : List Char) = "``".toList ++ ['\x60'] from rfl]
  rw [← List.append_assoc]
  rw [pyStripRight_append _ _ (by decide)]

theorem json_fence_isPrefixOf (inner : List Char) :
    ("```json".toList).isPrefixOf
      ("```json".toList ++ inner ++ "```".toList) = true :=
  List.isPrefixOf_iff_prefix.mpr
    ⟨inner ++ "```".toList, (List.append_assoc _ _ _).symm⟩

theorem pySlice_wrap (inner : List Char) :
    pySlice ("```json".toList ++ inner ++ "```".toList) 7 3 = inner := by
  unfold pySlice
  have ha : ("```json".toList : List Char).length = 7 := rfl
  have h1 : ("```json".toList ++ inner ++ "```".toList).length - 3
      = 7 + inner.length := by
    rw [List.length_append, List.length_append, ha]
    rfl
  rw [h1, List.take_left' (by rw [List.length_append, ha]),
    List.drop_left' ha]

theorem cleanText_wrap (inner : List Char) :
    cleanText ("```json".toList ++ inner ++ "```".toList) = inner := by
  simp only [cleanText]
  rw [pyStrip_wrap, json_fence_isPrefixOf, if_pos rfl]
  exact pySlice_wrap inner

/-! ## Claim theorems -/

/-- C2 (status: code_bug).  For a request whose `project_path` does not exist,
both `POST /analyze-existing` and `POST /enhance-app` make no oracle call, but
the response the caller sees is HTTP 500 with detail
`"404: Project path not found"`, not a 404: the inner
`HTTPException(404, ...)` is caught by the blanket `except Exception` and
re-raised as a 500.  This theorem evaluates both endpoints at the failing
input. -/
theorem c2_missing_path_gives_500_and_no_oracle_call :
    ∀ (tree : FileTree) (root : List String) (o o1 o2 : OracleResult)
      (fs : FSState),
      analyzeExistingEndpoint tree root false o
        = (.error ⟨500, "404: Project path not found"⟩, 0) ∧
      enhanceAppEndpoint tree root false o1 o2 fs
        = (.error ⟨500, "404: Project path not found"⟩, 0, fs) := by
  intro tree root o o1 o2 fs
  exact ⟨rfl, rfl⟩

/-- C3 (counterexample).  A batch of two valid modifications in which writing
the first file fails: the second file (`b.py`, perfectly writable) is never
written, so a single write failure does prevent the remaining entries of the
batch from being applied. -/
theorem c3_counterexample :
    getPath ((applyEnhancements ["r"]
        (Json.obj [("modifications",
          Json.obj [("a.py", Json.str "A"), ("b.py", Json.str "B")])])
        ⟨[], [["r", "a.py"]]⟩).files) ["r", "b.py"] = none ∧
    (["r", "b.py"] : List String) ∉ ([[ "r", "a.py"]] : List (List String)) :=
  ⟨rfl, by decide⟩

/-- C3 (amended).  A failure while writing one file is caught at the batch
level — `_apply_enhancements` returns normally, no exception reaches the
caller — but because the single `try` wraps both loops, the failure aborts
every remaining entry of the batch: the filesystem keeps exactly the writes
made before the failing entry. -/
theorem c3_write_failure_caught_but_aborts_batch :
    ∀ (root : List String) (p : String) (v : Json)
      (rest : List (String × Json)) (fs : FSState),
      isNonWsStr v = true →
      resolve root p ∈ fs.failing →
      applyList root ((p, v) :: rest) fs = (fs, true) ∧
      applyEnhancements root
        (Json.obj [("modifications", Json.obj ((p, v) :: rest))]) fs = fs := by
  intro root p v rest fs hv hfail
  have h1 : applyList root ((p, v) :: rest) fs = (fs, true) := by
    simp [applyList, hv, writeText, hfail]
  refine ⟨h1, ?_⟩
  simp [applyEnhancements, jLookup, lookupKvs, h1]

theorem c3_write_failure_caught_but_aborts_batch_witness :
    applyList ["r"] [("a.py", Json.str "A"), ("b.py", Json.str "B")]
      ⟨[], [["r", "a.py"]]⟩ = (⟨[], [["r", "a.py"]]⟩, true) :=
  (c3_write_failure_caught_but_aborts_batch ["r"] "a.py" (Json.str "A")
    [("b.py", Json.str "B")] ⟨[], [["r", "a.py"]]⟩ rfl (by decide)).1

/-- C4 (counterexample).  A modification entry whose path is `"../evil.py"`
is not rejected: applying it writes `/srv/evil.py`, a path outside the
project root `/srv/proj`. -/
theorem c4_counterexample :
    (applyEnhancements ["srv", "proj"]
        (Json.obj [("modifications",
          Json.obj [("../evil.py", Json.str "pwn")])])
        ⟨[(["srv", "proj", "main.py"], "m")], []⟩).files
      = [(["srv", "proj", "main.py"], "m"), (["srv", "evil.py"], "pwn")] ∧
    (["srv", "proj"] : List String).isPrefixOf ["srv", "evil.py"] = false :=
  ⟨rfl, rfl⟩

/-- C4 (amended).  `_apply_enhancements` has no traversal guard: an entry with
non-whitespace string content is written at the OS-resolved target of
`project_dir / file_path` even when that target lies outside the project
root. -/
theorem c4_traversal_entry_written_outside_root :
    ∀ (root : List String) (rel c : String) (fs : FSState),
      isNonWsStr (Json.str c) = true →
      resolve root rel ∉ fs.failing →
      root.isPrefixOf (resolve root rel) = false →
      getPath (applyEnhancements root
          (Json.obj [("modifications", Json.obj [(rel, Json.str c)])])
          fs).files (resolve root rel) = some c := by
  intro root rel c fs hc hfail _hout
  have happ : applyEnhancements root
      (Json.obj [("modifications", Json.obj [(rel, Json.str c)])]) fs
      = { fs with files := setPath fs.files (resolve root rel) c } := by
    simp [applyEnhancements, jLookup, lookupKvs, applyList, hc, writeText,
      hfail, strVal]
  rw [happ]
  exact getPath_setPath_self fs.files (resolve root rel) c

theorem c4_traversal_entry_written_outside_root_witness :
    getPath (applyEnhancements ["srv", "proj"]
        (Json.obj [("modifications",
          Json.obj [("../evil.py", Json.str "pwn")])])
        ⟨[(["srv", "proj", "main.py"], "m")], []⟩).files
      ["srv", "evil.py"] = some "pwn" :=
  c4_traversal_entry_written_outside_root ["srv", "proj"] "../evil.py" "pwn"
    ⟨[(["srv", "proj", "main.py"], "m")], []⟩ rfl (by decide) rfl

/-- C5 (counterexample).  When the oracle answers with unparseable text,
`generate_enhancement` returns the sentinel object of
`_clean_json_response`, which carries an `error` field but no
`changes_summary` at all — so the result does not contain a summary stating
that enhancement generation failed. -/
theorem c5_counterexample :
    jLookup (genEnhancement ["r"] (.ok "not json") ⟨[], []⟩).1
        "changes_summary" = none ∧
    jLookup (genEnhancement ["r"] (.ok "not json") ⟨[], []⟩).1 "error"
        = some (.str "Failed to parse response") :=
  ⟨rfl, rfl⟩

/-- C5 (amended).  `generate_enhancement` never raises past its boundary, and
returns one of two failure shapes: on a raised oracle error, an object with an
`error` field and `changes_summary = "Failed to generate enhancements"`; on an
unparseable oracle response, the parse-failure object
`(error, raw_response-prefix)` of `_clean_json_response` — which has an
`error` field but no summary — and no file is touched. -/
theorem c5_failure_shapes :
    ∀ (root : List String) (fs : FSState) (msg t : String),
      jsonParseChars (cleanText t.toList) = none →
      genEnhancement root (.err msg) fs
        = (.obj [("error", .str msg),
                 ("changes_summary", .str "Failed to generate enhancements")],
           fs) ∧
      genEnhancement root (.ok t) fs
        = (.obj [("error", .str "Failed to parse response"),
                 ("raw_response",
                  .str (String.mk ((cleanText t.toList).take 500)))], fs) := by
  intro root fs msg t hparse
  refine ⟨rfl, ?_⟩
  have hclean : cleanJsonResponseChars t.toList
      = .obj [("error", .str "Failed to parse response"),
              ("raw_response",
               .str (String.mk ((cleanText t.toList).take 500)))] := by
    simp only [cleanJsonResponseChars]
    rw [hparse]
  show (cleanJsonResponseChars t.toList,
      applyEnhancements root (cleanJsonResponseChars t.toList) fs) = _
  rw [hclean]
  simp [applyEnhancements, jLookup, lookupKvs]

theorem c5_failure_shapes_witness :
    genEnhancement ["r"] (.err "boom") ⟨[], []⟩
      = (.obj [("error", .str "boom"),
               ("changes_summary", .str "Failed to generate enhancements")],
         (⟨[], []⟩ : FSState)) ∧
    genEnhancement ["r"] (.ok "oops") ⟨[], []⟩
      = (.obj [("error", .str "Failed to parse response"),
               ("raw_response", .str "oops")], (⟨[], []⟩ : FSState)) :=
  c5_failure_shapes ["r"] ⟨[], []⟩ "boom" "oops" rfl

/-- C7 (counterexample).  A modification whose value is the non-empty string
`" "` is skipped — the target file keeps its old content — so "applied iff the
value is a non-empty string" fails: the code's test is Python truthiness of
`value.strip()`, which also rejects whitespace-only strings. -/
theorem c7_counterexample :
    applyEnhancements ["r"]
        (Json.obj [("modifications", Json.obj [("a.py", Json.str " ")])])
        ⟨[(["r", "a.py"], "old")], []⟩
      = ⟨[(["r", "a.py"], "old")], []⟩ ∧ (" " : String) ≠ "" :=
  ⟨rfl, by decide⟩

/-- C7 (amended).  Provided its write does not fail, a single-entry
modification batch is applied iff the value is a string containing at least
one non-whitespace character; null, non-string, empty and whitespace-only
values are silently skipped, leaving the target file untouched. -/
theorem c7_applied_iff_nonwhitespace_string :
    ∀ (root : List String) (p : String) (v : Json) (fs : FSState),
      resolve root p ∉ fs.failing →
      (applyEnhancements root
          (Json.obj [("modifications", Json.obj [(p, v)])]) fs
        = if isNonWsStr v then
            { fs with files := setPath fs.files (resolve root p) (strVal v) }
          else fs) ∧
      isNonWsStr (Json.str "x") = true ∧
      isNonWsStr (Json.str "") = false ∧
      isNonWsStr (Json.str " \n ") = false ∧
      isNonWsStr Json.null = false ∧
      isNonWsStr (Json.num 3) = false := by
  intro root p v fs hfail
  refine ⟨?_, rfl, rfl, by decide, rfl, rfl⟩
  by_cases hv : isNonWsStr v = true
  · simp [applyEnhancements, jLookup, lookupKvs, applyList, hv, writeText,
      hfail]
  · simp only [Bool.not_eq_true] at hv
    simp [applyEnhancements, jLookup, lookupKvs, applyList, hv]

theorem c7_applied_iff_nonwhitespace_string_witness :
    applyEnhancements ["r"]
        (Json.obj [("modifications", Json.obj [("a.py", Json.str "new")])])
        ⟨[(["r", "a.py"], "old")], []⟩
      = ⟨[(["r", "a.py"], "new")], []⟩ := by
  have h := (c7_applied_iff_nonwhitespace_string ["r"] "a.py" (Json.str "new")
    ⟨[(["r", "a.py"], "old")], []⟩ (by decide)).1
  simpa using h

/-- C6 (counterexample).  A ChangeSet with one modification and one new-file
entry, both with non-empty string content: the modification value `" "` is
skipped (Python truthiness of `value.strip()`), so after applying, `a.py`
still holds `"old"` rather than the modification content — not "exactly those
two files existing with exactly that content". -/
theorem c6_counterexample :
    (applyEnhancements ["r"]
        (Json.obj [("modifications", Json.obj [("a.py", Json.str " ")]),
                   ("new_files", Json.obj [("b.py", Json.str "x")])])
        ⟨[(["r", "a.py"], "old")], []⟩).files
      = [(["r", "a.py"], "old"), (["r", "b.py"], "x")] ∧
    (" " : String) ≠ "" :=
  ⟨rfl, by decide⟩

/-- C6 (amended).  For contents that contain a non-whitespace character,
distinct resolved targets, and no write failure, applying a ChangeSet with one
modification and one new-file entry yields exactly those contents at those two
targets, and every other path is byte-for-byte unchanged. -/
theorem c6_one_mod_one_new_frame :
    ∀ (root : List String) (p1 c1 p2 c2 summ : String) (fs : FSState),
      fs.failing = [] →
      isNonWsStr (Json.str c1) = true →
      isNonWsStr (Json.str c2) = true →
      resolve root p1 ≠ resolve root p2 →
      getPath (applyEnhancements root
          (Json.obj [("modifications", Json.obj [(p1, Json.str c1)]),
                     ("new_files", Json.obj [(p2, Json.str c2)]),
                     ("changes_summary", Json.str summ)]) fs).files
        (resolve root p1) = some c1 ∧
      getPath (applyEnhancements root
          (Json.obj [("modifications", Json.obj [(p1, Json.str c1)]),
                     ("new_files", Json.obj [(p2, Json.str c2)]),
                     ("changes_summary", Json.str summ)]) fs).files
        (resolve root p2) = some c2 ∧
      ∀ q : List String, q ≠ resolve root p1 → q ≠ resolve root p2 →
        getPath (applyEnhancements root
            (Json.obj [("modifications", Json.obj [(p1, Json.str c1)]),
                       ("new_files", Json.obj [(p2, Json.str c2)]),
                       ("changes_summary", Json.str summ)]) fs).files q
          = getPath fs.files q := by
  intro root p1 c1 p2 c2 summ fs hfail h1 h2 hne
  have happ : applyEnhancements root
      (Json.obj [("modifications", Json.obj [(p1, Json.str c1)]),
                 ("new_files", Json.obj [(p2, Json.str c2)]),
                 ("changes_summary", Json.str summ)]) fs
      = { fs with files := setPath (setPath fs.files (resolve root p1) c1)
                    (resolve root p2) c2 } := by
    simp [applyEnhancements, jLookup, lookupKvs, applyList, h1, h2,
      writeText, hfail, strVal]
  rw [happ]
  dsimp only
  refine ⟨?_, ?_, ?_⟩
  · rw [getPath_setPath_ne _ _ _ _ hne]
    exact getPath_setPath_self _ _ _
  · exact getPath_setPath_self _ _ _
  · intro q hq1 hq2
    rw [getPath_setPath_ne _ _ _ _ hq2, getPath_setPath_ne _ _ _ _ hq1]

theorem c6_one_mod_one_new_frame_witness :
    getPath (applyEnhancements ["r"]
        (Json.obj [("modifications", Json.obj [("a.py", Json.str "A")]),
                   ("new_files", Json.obj [("sub/b.py", Json.str "B")]),
                   ("changes_summary", Json.str "two files")])
        ⟨[(["r", "a.py"], "old"), (["r", "keep.py"], "k")], []⟩).files
      ["r", "a.py"] = some "A" ∧
    getPath (applyEnhancements ["r"]
        (Json.obj [("modifications", Json.obj [("a.py", Json.str "A")]),
                   ("new_files", Json.obj [("sub/b.py", Json.str "B")]),
                   ("changes_summary", Json.str "two files")])
        ⟨[(["r", "a.py"], "old"), (["r", "keep.py"], "k")], []⟩).files
      ["r", "sub", "b.py"] = some "B" ∧
    getPath (applyEnhancements ["r"]
        (Json.obj [("modifications", Json.obj [("a.py", Json.str "A")]),
                   ("new_files", Json.obj [("sub/b.py", Json.str "B")]),
                   ("changes_summary", Json.str "two files")])
        ⟨[(["r", "a.py"], "old"), (["r", "keep.py"], "k")], []⟩).files
      ["r", "keep.py"] = some "k" := by
  have h := c6_one_mod_one_new_frame ["r"] "a.py" "A" "sub/b.py" "B"
    "two files" ⟨[(["r", "a.py"], "old"), (["r", "keep.py"], "k")], []⟩
    rfl rfl rfl (by decide)
  refine ⟨h.1, h.2.1, ?_⟩
  have hk := h.2.2 ["r", "keep.py"] (by decide) (by decide)
  simpa [getPath] using hk

/-- C1 (counterexample).  A fenced block with the language tag `python`:
`_clean_json_response` only special-cases the `json` tag, so here it strips
just the bare fence and leaves `"python"` glued to the payload; parsing fails
and the sentinel error object is returned, while parsing the unwrapped inner
text directly succeeds with `{}`. -/
theorem c1_counterexample :
    cleanJsonResponse "```python\n\x7b\x7d\n```"
      = Json.obj [("error", Json.str "Failed to parse response"),
                  ("raw_response", Json.str "python\n\x7b\x7d\n")] ∧
    jsonParse "\n\x7b\x7d\n" = some (Json.obj []) ∧
    Json.obj [("error", Json.str "Failed to parse response"),
              ("raw_response", Json.str "python\n\x7b\x7d\n")]
      ≠ Json.obj [] :=
  ⟨rfl, rfl, by simp⟩

/-- C1 (amended).  For the one language tag the code recognizes — `json` —
strip-then-parse agrees with parsing the unwrapped inner text: for every inner
text that the JSON parser accepts, `_clean_json_response` on
```` ```json<inner>``` ```` returns exactly that parse result.  (For any other
tag only the bare fence is stripped, the tag remains, and the results
differ.) -/
theorem c1_json_fence_strip_then_parse :
    ∀ (inner : List Char) (j : Json),
      jsonParseChars inner = some j →
      cleanJsonResponseChars
        ("```json".toList ++ inner ++ "```".toList) = j := by
  intro inner j h
  simp only [cleanJsonResponseChars]
  rw [cleanText_wrap, h]

theorem c1_json_fence_strip_then_parse_witness :
    cleanJsonResponseChars
        ("```json".toList ++ "null".toList ++ "```".toList) = Json.null :=
  c1_json_fence_strip_then_parse "null".toList Json.null rfl

/-- C8 (confirmed).  For every directory tree, no path in the file set
returned by `_read_project_files` contains a virtual-environment (`venv`) or
bytecode-cache (`__pycache__`) directory segment: the recursive loop excludes
any path whose full string contains those markers as substrings (which covers
every such directory segment), and the top-level loop only ever returns
single-segment keys, which have no directory part. -/
theorem c8_returned_paths_have_no_env_dir_segment :
    ∀ (tree : FileTree) (root : List String) (rootE : Bool)
      (k : List String) (c : String),
      (k, c) ∈ readProjectFiles tree root rootE →
      "venv" ∉ k.dropLast ∧ "__pycache__" ∉ k.dropLast := by
  intro tree root rootE k c hmem
  unfold readProjectFiles at hmem
  cases rootE with
  | false => simp at hmem
  | true =>
    rw [if_pos rfl, List.mem_append] at hmem
    rcases hmem with hmem | hmem
    · unfold sourceFilesOf at hmem
      rw [List.mem_map] at hmem
      obtain ⟨e, hef, heq⟩ := hmem
      rw [List.mem_filter] at hef
      obtain ⟨_het, hp⟩ := hef
      simp only [Bool.and_eq_true] at hp
      obtain ⟨⟨⟨_hunder, _hext⟩, hv⟩, hc2⟩ := hp
      injection heq with hk hc
      subst hk
      have hv' : containsSub "venv" e.1 = false := by
        simpa using hv
      have hc2' : containsSub "__pycache__" e.1 = false := by
        simpa using hc2
      exact ⟨no_seg_of_containsSub_false _ _ _ hv',
             no_seg_of_containsSub_false _ _ _ hc2'⟩
    · unfold topLevelExtraOf at hmem
      rw [List.mem_map] at hmem
      obtain ⟨e, hef, heq⟩ := hmem
      rw [List.mem_filter] at hef
      obtain ⟨_het, hp⟩ := hef
      simp only [Bool.and_eq_true] at hp
      obtain ⟨⟨_hpre, hlen⟩, _hm⟩ := hp
      have hlen' : e.1.length = root.length + 1 := by simpa using hlen
      injection heq with hk hc
      subst hk
      have hk1 : (e.1.drop root.length).length = 1 := by
        rw [List.length_drop, hlen']
        omega
      obtain ⟨a, hka⟩ := List.length_eq_one.mp hk1
      rw [hka]
      simp

theorem c8_returned_paths_have_no_env_dir_segment_witness :
    ((["sub", "x.py"], "c") : List String × String)
        ∈ readProjectFiles [(["r", "sub", "x.py"], "c")] ["r"] true ∧
    "venv" ∉ (["sub", "x.py"] : List String).dropLast ∧
    "__pycache__" ∉ (["sub", "x.py"] : List String).dropLast := by
  have hm : ((["sub", "x.py"], "c") : List String × String)
      ∈ readProjectFiles [(["r", "sub", "x.py"], "c")] ["r"] true := by decide
  have h := c8_returned_paths_have_no_env_dir_segment
    [(["r", "sub", "x.py"], "c")] ["r"] true ["sub", "x.py"] "c" hm
  exact ⟨hm, h.1, h.2⟩

/-- C10 (confirmed).  The exclusion test of `_read_project_files` is a
substring match over the full stringified absolute path (which includes the
project root), so for any project whose own root path contains `"venv"` as a
substring, the recursive source-file collection is empty regardless of the
tree's contents. -/
theorem c10_venv_in_root_empties_source_collection :
    ∀ (tree : FileTree) (root : List String),
      containsSub "venv" root = true →
      sourceFilesOf tree root = [] := by
  intro tree root h
  unfold sourceFilesOf
  have hfil : (tree.filter fun e =>
      isProperUnder root e.1 && strEndsWith (lastSegOf e.1) ".py" &&
      !containsSub "venv" e.1 && !containsSub "__pycache__" e.1) = [] := by
    rw [List.filter_eq_nil_iff]
    intro e _he hp
    simp only [Bool.and_eq_true] at hp
    obtain ⟨⟨⟨hunder, _hext⟩, hv⟩, _hc⟩ := hp
    have hpre : root <+: e.1 := by
      simp only [isProperUnder, Bool.and_eq_true] at hunder
      exact List.isPrefixOf_iff_prefix.mp hunder.1
    have hc := containsSub_of_prefix "venv" root e.1 hpre h
    rw [hc] at hv
    simp at hv
  rw [hfil]
  rfl

theorem c10_venv_in_root_empties_source_collection_witness :
    containsSub "venv" ["home", "venvs", "proj"] = true ∧
    sourceFilesOf [(["home", "venvs", "proj", "main.py"], "print(1)")]
        ["home", "venvs", "proj"] = [] :=
  ⟨by decide,
   c10_venv_in_root_empties_source_collection
     [(["home", "venvs", "proj", "main.py"], "print(1)")]
     ["home", "venvs", "proj"] (by decide)⟩

/-- C9 (confirmed).  `POST /analyze-existing` on an existing project path,
with the oracle returning text the JSON parser rejects even after fence
stripping: the pydantic constructor rejects the sentinel object, the service
falls back to the deterministic report (fixed component list, placeholder
issue, fixed suggestions, complexity score 5), and the endpoint answers
`status: success` with exactly one oracle call — no exception reaches the
caller. -/
theorem c9_unparseable_oracle_falls_back_to_success :
    ∀ (tree : FileTree) (root : List String) (t : String),
      jsonParseChars (cleanText t.toList) = none →
      analyzeExistingEndpoint tree root true (.ok t)
        = (.ok { status := "success",
                 analysis :=
                   fallbackAnalysis
                     (readProjectFiles tree root true).length }, 1) := by
  intro tree root t hparse
  have hclean : cleanJsonResponseChars t.toList
      = .obj [("error", .str "Failed to parse response"),
              ("raw_response",
               .str (String.mk ((cleanText t.toList).take 500)))] := by
    simp only [cleanJsonResponseChars]
    rw [hparse]
  have hserv : analyzeExistingService tree root true (.ok t)
      = fallbackAnalysis (readProjectFiles tree root true).length := by
    show (match mkCodeAnalysis (cleanJsonResponseChars t.toList) with
      | some ca => ca
      | none =>
        fallbackAnalysis (readProjectFiles tree root true).length)
      = fallbackAnalysis (readProjectFiles tree root true).length
    rw [hclean]
    rfl
  show (Except.ok
      ({ status := "success",
         analysis := analyzeExistingService tree root true (.ok t) }
        : AnalyzeResp), 1) = _
  rw [hserv]

theorem c9_unparseable_oracle_falls_back_to_success_witness :
    analyzeExistingEndpoint [(["r", "main.py"], "code")] ["r"] true
        (.ok "hello")
      = (.ok { status := "success", analysis := fallbackAnalysis 1 }, 1) :=
  c9_unparseable_oracle_falls_back_to_success
    [(["r", "main.py"], "code")] ["r"] "hello" rfl

end AppBuilder
